import Mathlib

/-!
Verification development for the health-log normalization and aggregation core.

The Python sources are embedded shallowly:
* Python floats are modelled as `ℚ` (all quantities handled by the programs are
  decimal data read from text; the claims under study only involve values on
  which rational and binary floating point arithmetic agree).
* calendar dates are modelled as civil dates (`CivilDate`) together with their
  day number (days since 1970-01-01, which was a Thursday, hence
  `pyWeekday day = (day + 3) % 7` models `datetime.weekday()`, Monday = 0);
  an ISO `YYYY-MM-DD` string corresponds one-to-one to its civil date, so
  functions that pass ISO strings around are modelled on day numbers.
* a raised exception is modelled as `none` (for `ValueError` inside helpers
  swallowed by callers) or as `Except.error` (for fatal errors).
-/

namespace HealthLog

/-! ### Python string helpers (Field Normalizer, update_weight_history.py / loseit_week_analyzer.py) -/

/-- Characters removed by Python `str.strip()` (ASCII whitespace and U+00A0
non-breaking space, the cases exercised by these programs). -/
def isPySpace (c : Char) : Bool :=
  (c == ' ') || (c == '\t') || (c == '\n') || (c == '\r') || (c == '\x0b') ||
    (c == '\x0c') || (c == '\u00A0')

/-- Python `str.strip()`. -/
def pyStrip (s : String) : String :=
  ⟨((s.data.dropWhile isPySpace).reverse.dropWhile isPySpace).reverse⟩

/-- Python `str.lower()` (ASCII). -/
def pyLower (s : String) : String :=
  ⟨s.data.map Char.toLower⟩

/-- Accumulate a decimal digit string into a natural number. -/
def digitsToNat (acc : ℕ) : List Char → ℕ
  | [] => acc
  | c :: cs => digitsToNat (acc * 10 + (c.toNat - 48)) cs

/-- Core of Python `float(s)` on the numeric strings these programs feed it:
optional sign, integer digits, optional fractional part.  `none` models a
raised `ValueError`. -/
def pyFloatCore (cs0 : List Char) : Option ℚ :=
  let signed : ℚ × List Char :=
    match cs0 with
    | '-' :: rest => (-1, rest)
    | '+' :: rest => (1, rest)
    | _ => (1, cs0)
  let ip := signed.2.takeWhile Char.isDigit
  let rest := signed.2.dropWhile Char.isDigit
  match rest with
  | [] => if ip.isEmpty then none else some (signed.1 * (digitsToNat 0 ip : ℚ))
  | '.' :: fp =>
    if fp.all Char.isDigit then
      if ip.isEmpty && fp.isEmpty then none
      else some (signed.1 * ((digitsToNat 0 ip : ℚ) + (digitsToNat 0 fp : ℚ) / (10 ^ fp.length : ℚ)))
    else none
  | _ => none

/-- Python `float(s)` (which itself ignores surrounding whitespace). -/
def pyFloat? (s : String) : Option ℚ :=
  pyFloatCore (pyStrip s).data

/-- `_to_float` from update_weight_history.py: strip, drop commas and double
quotes, empty becomes `None`, unparseable becomes `None`. -/
def _to_float (s : String) : Option ℚ :=
  let s1 : List Char := (pyStrip s).data.filter (fun c => !(c == ',') && !(c == Char.ofNat 34))
  if s1.isEmpty then none else pyFloat? ⟨s1⟩

/-- Core of Python `int(s)`: optional sign then digits, nothing else.
`none` models a raised `ValueError`. -/
def pyIntCore (cs : List Char) : Option ℤ :=
  match cs with
  | '-' :: rest =>
    if !rest.isEmpty && rest.all Char.isDigit then some (-(digitsToNat 0 rest : ℤ)) else none
  | '+' :: rest =>
    if !rest.isEmpty && rest.all Char.isDigit then some ((digitsToNat 0 rest : ℤ)) else none
  | _ =>
    if !cs.isEmpty && cs.all Char.isDigit then some ((digitsToNat 0 cs : ℤ)) else none

/-- `parse_int_like` from loseit_week_analyzer.py.  The argument is `none` when
the Python caller passes `None`; a `none` result models the `ValueError`
raised by the final `int()` conversion, which the function does not catch. -/
def parse_int_like (x : Option String) : Option ℤ :=
  match x with
  | none => some 0
  | some x0 =>
    let s := pyStrip x0
    if s = "" ∨ s = "-" ∨ s = "–" then some 0
    else
      let cleaned := s.data.filter (fun c => c.isDigit || c == '-')
      if cleaned = [] ∨ cleaned = ['-'] then some 0
      else pyIntCore cleaned

/-! ### Dates -/

/-- A civil (proleptic Gregorian) calendar date, the result of a successful
`datetime.strptime` call. -/
structure CivilDate where
  year : ℤ
  month : ℕ
  day : ℕ
deriving DecidableEq

def isLeapYear (y : ℤ) : Bool :=
  (y % 4 == 0) && (!(y % 100 == 0) || (y % 400 == 0))

def daysInMonth (y : ℤ) (m : ℕ) : ℕ :=
  if m = 2 then (if isLeapYear y then 29 else 28)
  else if m = 4 ∨ m = 6 ∨ m = 9 ∨ m = 11 then 30
  else 31

/-- The dates `datetime(year, month, day)` accepts. -/
def validDate? (y : ℤ) (m d : ℕ) : Bool :=
  decide (1 ≤ y) && decide (y ≤ 9999) && decide (1 ≤ m) && decide (m ≤ 12) &&
    decide (1 ≤ d) && decide (d ≤ daysInMonth y m)

def mkDate (y : ℤ) (m d : ℕ) : Option CivilDate :=
  if validDate? y m d then some ⟨y, m, d⟩ else none

/-- Day number of a civil date, with day 0 = 1970-01-01 (Hinnant's
days-from-civil algorithm; all intermediate quotients here are of nonnegative
numbers for the years `datetime` accepts, so `Int` division is faithful). -/
def daysFromCivil (c : CivilDate) : ℤ :=
  let y : ℤ := if c.month ≤ 2 then c.year - 1 else c.year
  let m : ℤ := (c.month : ℤ)
  let d : ℤ := (c.day : ℤ)
  let era : ℤ := (if 0 ≤ y then y else y - 399) / 400
  let yoe : ℤ := y - era * 400
  let doy : ℤ := (153 * (m + (if 2 < m then -3 else 9)) + 2) / 5 + d - 1
  let doe : ℤ := yoe * 365 + yoe / 4 - yoe / 100 + doy
  era * 146097 + doe - 719468

/-- `datetime.weekday()` on a day number: Monday = 0.  Day 0 (1970-01-01) was
a Thursday, weekday 3. -/
def pyWeekday (day : ℤ) : ℤ :=
  (day + 3) % 7

/-- `_monday_week_start` from update_weight_history.py:
`dt - timedelta(days=dt.weekday())`, on day numbers. -/
def _monday_week_start (day : ℤ) : ℤ :=
  day - pyWeekday day

/-! ### strptime: the five configured patterns of update_weight_history.py -/

/-- Read exactly `n` digits (regex `\d` repeated `n` times, as `_strptime`
compiles `%Y` and `%y`). -/
def readFixed (n : ℕ) (acc : ℕ) (cs : List Char) : Option (ℕ × List Char) :=
  match n, cs with
  | 0, rest => some (acc, rest)
  | n + 1, c :: rest =>
    if c.isDigit then readFixed n (acc * 10 + (c.toNat - 48)) rest else none
  | _ + 1, [] => none

/-- Read a 1- or 2-digit field with value in `1 .. maxV` (the `_strptime`
regexes for `%m` and `%d`; a leading zero needs a second digit, and since each
field here is followed by a non-digit separator or the end of the string, the
greedy two-digit read agrees with the regex). -/
def read2 (maxV : ℕ) (cs : List Char) : Option (ℕ × List Char) :=
  match cs with
  | c1 :: c2 :: rest =>
    if c1.isDigit then
      if c2.isDigit then
        let v := (c1.toNat - 48) * 10 + (c2.toNat - 48)
        if 1 ≤ v ∧ v ≤ maxV then some (v, rest) else none
      else
        let v := c1.toNat - 48
        if 1 ≤ v then some (v, c2 :: rest) else none
    else none
  | [c1] =>
    if c1.isDigit then
      let v := c1.toNat - 48
      if 1 ≤ v then some (v, []) else none
    else none
  | [] => none

def expectChar (c : Char) (cs : List Char) : Option (List Char) :=
  match cs with
  | c0 :: rest => if c0 == c then some rest else none
  | [] => none

def monthAbbrevs : List (List Char) :=
  [['j','a','n'], ['f','e','b'], ['m','a','r'], ['a','p','r'], ['m','a','y'], ['j','u','n'],
   ['j','u','l'], ['a','u','g'], ['s','e','p'], ['o','c','t'], ['n','o','v'], ['d','e','c']]

/-- `%b`: a case-insensitive three-letter month abbreviation. -/
def readMonthAbbrev (cs : List Char) : Option (ℕ × List Char) :=
  match cs with
  | c1 :: c2 :: c3 :: rest =>
    let key := [c1.toLower, c2.toLower, c3.toLower]
    match monthAbbrevs.findIdx? (fun a => a == key) with
    | some i => some (i + 1, rest)
    | none => none
  | _ => none

/-- Two-digit year mapping of `%y`: 00–68 → 2000s, 69–99 → 1900s. -/
def expandY2 (v : ℕ) : ℤ :=
  if v ≤ 68 then (2000 + v : ℤ) else (1900 + v : ℤ)

/-- `strptime(raw, "%Y-%m-%d")`. -/
def strptimeYmd (s : String) : Option CivilDate := do
  let (y, r1) ← readFixed 4 0 s.data
  let r2 ← expectChar '-' r1
  let (m, r3) ← read2 12 r2
  let r4 ← expectChar '-' r3
  let (d, r5) ← read2 31 r4
  if r5 = [] then mkDate (y : ℤ) m d else none

/-- `strptime(raw, "%m/%d/%Y")`. -/
def strptimeMdY4 (s : String) : Option CivilDate := do
  let (m, r1) ← read2 12 s.data
  let r2 ← expectChar '/' r1
  let (d, r3) ← read2 31 r2
  let r4 ← expectChar '/' r3
  let (y, r5) ← readFixed 4 0 r4
  if r5 = [] then mkDate (y : ℤ) m d else none

/-- `strptime(raw, "%m/%d/%y")`. -/
def strptimeMdY2 (s : String) : Option CivilDate := do
  let (m, r1) ← read2 12 s.data
  let r2 ← expectChar '/' r1
  let (d, r3) ← read2 31 r2
  let r4 ← expectChar '/' r3
  let (y2, r5) ← readFixed 2 0 r4
  if r5 = [] then mkDate (expandY2 y2) m d else none

/-- `strptime(raw, "%d-%b-%y")`. -/
def strptimeDbY2 (s : String) : Option CivilDate := do
  let (d, r1) ← read2 31 s.data
  let r2 ← expectChar '-' r1
  let (m, r3) ← readMonthAbbrev r2
  let r4 ← expectChar '-' r3
  let (y2, r5) ← readFixed 2 0 r4
  if r5 = [] then mkDate (expandY2 y2) m d else none

/-- `strptime(raw, "%d-%b-%Y")`. -/
def strptimeDbY4 (s : String) : Option CivilDate := do
  let (d, r1) ← read2 31 s.data
  let r2 ← expectChar '-' r1
  let (m, r3) ← readMonthAbbrev r2
  let r4 ← expectChar '-' r3
  let (y, r5) ← readFixed 4 0 r4
  if r5 = [] then mkDate (y : ℤ) m d else none

/-- `DATE_PATTERNS` from update_weight_history.py, in source order. -/
def DATE_PATTERNS : List (String → Option CivilDate) :=
  [strptimeYmd, strptimeMdY4, strptimeMdY2, strptimeDbY2, strptimeDbY4]

/-- Return the first successful attempt, like the Python loop over patterns. -/
def firstSome {α : Type} : List (Option α) → Option α
  | [] => none
  | some x :: _ => some x
  | none :: rest => firstSome rest

/-- `raw.replace("/", "-")` (the arguments are single characters). -/
def slashToDash (s : String) : String :=
  ⟨s.data.map (fun c => if c == '/' then '-' else c)⟩

/-- `_parse_date_to_iso` from update_weight_history.py.  A successful parse is
returned as the civil date that the ISO output string denotes; `none` models
the raised `ValueError`. -/
def _parse_date_to_iso (raw : String) : Option CivilDate :=
  let r := pyStrip raw
  if r = "" then none
  else
    match firstSome (DATE_PATTERNS.map (fun p => p r)) with
    | some d => some d
    | none => strptimeYmd (slashToDash r)

/-! ### Workout domain: 1RM estimation (workout_history.py) -/

structure OneRMConfig where
  formula : String
deriving DecidableEq

/-- `estimate_1rm` from workout_history.py.  `Except.error` models the raised
`ValueError` for an unknown formula. -/
def estimate_1rm (weight : ℚ) (reps : ℤ) (cfg : OneRMConfig) : Except String ℚ :=
  if reps ≤ 1 then .ok weight
  else if pyLower cfg.formula = "epley" then .ok (weight * (1 + (reps : ℚ) / 30))
  else if pyLower cfg.formula = "brzycki" then
    .ok (weight * (36 / (37 - ((min reps 36 : ℤ) : ℚ))))
  else .error ("Unknown formula: " ++ cfg.formula)

/-! ### Schema Resolver and Daily Record Builder (update_weight_history.py) -/

/-- `_normalize_header`: strip, lower-case, spaces to underscores. -/
def _normalize_header (h : String) : String :=
  ⟨((pyStrip h).data.map Char.toLower).map (fun c => if c == ' ' then '_' else c)⟩

/-- `ALIASES` from update_weight_history.py, in source (dict) order. -/
def ALIASES : List (String × List String) :=
  [(("date"), [("date"), ("day"), ("entry_date"), ("log_date"), ("timestamp")]),
   (("food"), [("food"), ("calories"), ("cals"), ("kcal"), ("intake"), ("eaten")]),
   (("exercise"), [("exercise"), ("exer"), ("exer."), ("burned"), ("calories_burned"), ("activity")]),
   (("weight"), [("weight"), ("weight_lbs"), ("lbs"), ("bodyweight"), ("scale_weight")])]

/-- Python dict assignment on an insertion-ordered association list:
replace the first matching key in place, otherwise append. -/
def assocSet : List (String × String) → String → String → List (String × String)
  | [], k, v => [(k, v)]
  | (k0, v0) :: rest, k, v =>
    if k0 = k then (k, v) :: rest else (k0, v0) :: assocSet rest k v

def assocGet (m : List (String × String)) (k : String) : Option String :=
  (m.find? (fun p => p.1 == k)).map (fun p => p.2)

/-- The dict comprehension building `norm_to_original` (later headers overwrite
earlier ones on a normalized-name collision, like a Python dict). -/
def normToOriginal (headers : List String) : List (String × String) :=
  headers.foldl (fun m h => assocSet m (_normalize_header h) h) []

/-- The inner alias loop of `_build_column_map`: the first alias present among
the normalized headers wins. -/
def resolveField (norm : List (String × String)) : List String → Option String
  | [] => none
  | a :: rest =>
    match assocGet norm (_normalize_header a) with
    | some orig => some orig
    | none => resolveField norm rest

/-- `_build_column_map`: canonical field name to actual source header. -/
def _build_column_map (headers : List String) : List (String × String) :=
  let norm := normToOriginal headers
  ALIASES.foldl
    (fun cm p =>
      match resolveField norm p.2 with
      | some orig => cm ++ [(p.1, orig)]
      | none => cm) []

/-- A raw CSV row: header name to cell text, as `csv.DictReader` yields it. -/
abbrev RawRow := List (String × String)

def rowGet (r : RawRow) (h : String) : Option String :=
  (r.find? (fun p => p.1 == h)).map (fun p => p.2)

/-- `DailyRow` from update_weight_history.py; `date` is the day number of
`date_iso`. -/
structure DailyRow where
  date : ℤ
  weight : Option ℚ
  food : Option ℚ
  exercise : Option ℚ
deriving DecidableEq

/-- Build one `DailyRow` from a raw row whose date parsed to `c`. -/
def mkDaily (cm : List (String × String)) (r : RawRow) (c : CivilDate) : DailyRow :=
  { date := daysFromCivil c
    weight :=
      match assocGet cm ("weight") with
      | some hW => _to_float ((rowGet r hW).getD (""))
      | none => none
    food :=
      match assocGet cm ("food") with
      | some hF => _to_float ((rowGet r hF).getD (""))
      | none => none
    exercise :=
      match assocGet cm ("exercise") with
      | some hE => _to_float ((rowGet r hE).getD (""))
      | none => none }

/-- The row loop of `_extract_daily_rows`: rows with a blank or unparseable
date cell are skipped (`continue`), all others become daily records. -/
def extractLoop (cm : List (String × String)) (dateH : String) : List RawRow → List DailyRow
  | [] => []
  | r :: rest =>
    let raw_date := pyStrip ((rowGet r dateH).getD (""))
    if raw_date = "" then extractLoop cm dateH rest
    else
      match _parse_date_to_iso raw_date with
      | some c => mkDaily cm r c :: extractLoop cm dateH rest
      | none => extractLoop cm dateH rest

/-- `_extract_daily_rows`: fatal error when no date column resolves, otherwise
the surviving daily records and the column map. -/
def _extract_daily_rows (rows : List RawRow) (headers : List String) :
    Except String (List DailyRow × List (String × String)) :=
  let cm := _build_column_map headers
  match assocGet cm ("date") with
  | none => .error ("sample_calories.csv must have a Date column")
  | some dateH => .ok (extractLoop cm dateH rows, cm)

/-! ### Time-Bucket Aggregator (update_weight_history.py) -/

/-- `_avg`: arithmetic mean, `None` on an empty list. -/
def _avg (vals : List ℚ) : Option ℚ :=
  if vals = [] then none else some (vals.sum / vals.length)

/-- The four per-bucket value lists accumulated by `_aggregate_weekly`. -/
structure BucketAcc where
  weight : List ℚ
  food : List ℚ
  exercise : List ℚ
  net : List ℚ
deriving DecidableEq

def emptyBucket : BucketAcc := ⟨[], [], [], []⟩

/-- The `net` contribution of a day: present only when both food and exercise
are. -/
def netOf? (d : DailyRow) : Option ℚ :=
  match d.food, d.exercise with
  | some f, some e => some (f - e)
  | _, _ => none

/-- Append one day's non-missing values to a bucket. -/
def pushDay (b : BucketAcc) (d : DailyRow) : BucketAcc :=
  ⟨b.weight ++ d.weight.toList, b.food ++ d.food.toList,
   b.exercise ++ d.exercise.toList, b.net ++ (netOf? d).toList⟩

/-- Update the insertion-ordered bucket dict at key `k` with day `d`,
creating the bucket if absent. -/
def assocUpdate (k : ℤ) (d : DailyRow) : List (ℤ × BucketAcc) → List (ℤ × BucketAcc)
  | [] => [(k, pushDay emptyBucket d)]
  | (k0, b) :: rest =>
    if k0 = k then (k0, pushDay b d) :: rest else (k0, b) :: assocUpdate k d rest

/-- The first loop of `_aggregate_weekly`. -/
def collectBuckets (daily : List DailyRow) : List (ℤ × BucketAcc) :=
  daily.foldl (fun bs d => assocUpdate (_monday_week_start d.date) d bs) []

/-- One weekly aggregate row (pre-formatting). -/
structure WeeklyAgg where
  avg_weight : Option ℚ
  avg_food : Option ℚ
  avg_exercise : Option ℚ
  avg_net : Option ℚ
deriving DecidableEq

def mkAgg (b : BucketAcc) : WeeklyAgg :=
  ⟨_avg b.weight, _avg b.food, _avg b.exercise, _avg b.net⟩

/-- `_aggregate_weekly`: week-start key (always a Monday day number) to the
four independent averages. -/
def _aggregate_weekly (daily : List DailyRow) : List (ℤ × WeeklyAgg) :=
  (collectBuckets daily).map (fun p => (p.1, mkAgg p.2))

/-! ### Merge-Upsert Store (update_weight_history.py, `main` and helpers) -/

/-- Round half to even, the tie rule of Python float formatting (the exact
binary-float tie cases are immaterial to the claims proved here, which only
use that formatting is a function). -/
def roundHalfEven (x : ℚ) : ℤ :=
  let f := ⌊x⌋
  let r := x - (f : ℚ)
  if r < 1/2 then f
  else if 1/2 < r then f + 1
  else if f % 2 = 0 then f else f + 1

/-- `_fmt_1`: one decimal place, empty for missing. -/
def _fmt_1 (x : Option ℚ) : String :=
  match x with
  | none => ""
  | some v =>
    let n := roundHalfEven (10 * v)
    toString (n / 10) ++ ("." : String) ++ toString (n % 10)

/-- `_fmt_0`: zero decimal places, empty for missing. -/
def _fmt_0 (x : Option ℚ) : String :=
  match x with
  | none => ""
  | some v => toString (roundHalfEven v)

/-- One formatted output row of weight_history.csv.  `week_start` is kept as
a day number (its ISO rendering is the CSV cell; ISO strings sort exactly like
day numbers). -/
structure OutRow where
  week_start : ℤ
  avg_weight : String
  avg_food : String
  avg_exercise : String
  avg_net : String
deriving DecidableEq

/-- The `new_row` dict built in `main` for one computed week. -/
def formatRow (ws : ℤ) (v : WeeklyAgg) : OutRow :=
  ⟨ws, _fmt_1 v.avg_weight, _fmt_0 v.avg_food, _fmt_0 v.avg_exercise, _fmt_0 v.avg_net⟩

/-- `ws in existing` / `existing[ws]` lookup. -/
def lookupWeek (t : List OutRow) (ws : ℤ) : Option OutRow :=
  t.find? (fun r => r.week_start == ws)

/-- Python dict assignment `existing[ws] = row` on an insertion-ordered table:
replace the first row with the same key in place, else append. -/
def dictInsert : List OutRow → OutRow → List OutRow
  | [], row => [row]
  | r :: rest, row =>
    if r.week_start = row.week_start then row :: rest else r :: dictInsert rest row

/-- `_load_existing_weekly`: rebuild the keyed table from the file's rows
(duplicate keys collapse, last row wins, like the Python dict). -/
def _load_existing_weekly (rows : List OutRow) : List OutRow :=
  rows.foldl dictInsert []

/-- One iteration of the merge loop in `main`. -/
def mergeStep (acc : List OutRow × ℕ × ℕ) (wv : ℤ × WeeklyAgg) : List OutRow × ℕ × ℕ :=
  let new_row := formatRow wv.1 wv.2
  match lookupWeek acc.1 wv.1 with
  | none => (dictInsert acc.1 new_row, acc.2.1 + 1, acc.2.2)
  | some before =>
    (dictInsert acc.1 new_row, acc.2.1, if new_row = before then acc.2.2 else acc.2.2 + 1)

/-- The merge loop of `main`: returns the merged table and the
(added, updated) counters. -/
def mergeRun (weekly : List (ℤ × WeeklyAgg)) (existing : List OutRow) :
    List OutRow × ℕ × ℕ :=
  weekly.foldl mergeStep (existing, 0, 0)

/-- `_write_weekly`: full rewrite, rows sorted ascending by bucket key. -/
def _write_weekly (t : List OutRow) : List OutRow :=
  List.insertionSort (fun a b => a.week_start ≤ b.week_start) t

/-- One whole run of `main` after daily extraction: aggregate, then
merge-upsert into the persisted table. -/
def runWeekly (daily : List DailyRow) (existing : List OutRow) :
    List OutRow × ℕ × ℕ :=
  mergeRun (_aggregate_weekly daily) existing

/-! ### Derived-Metric Engine: best-per-day series and PR gaps (workout_history.py) -/

/-- `Series.cummax` seeded with a running maximum. -/
def cummaxFrom (m : ℚ) : List ℚ → List ℚ
  | [] => []
  | x :: xs => max m x :: cummaxFrom (max m x) xs

/-- `sub["est_1rm"].cummax()` from `plot_exercise_history`. -/
def cummax : List ℚ → List ℚ
  | [] => []
  | x :: xs => x :: cummaxFrom x xs

/-- `idxmax` semantics: the first element (in list order) attaining the
maximum estimate, scanning with a strictly-greater update. -/
def firstMaxBy (x : ℤ × ℚ) : List (ℤ × ℚ) → ℤ × ℚ
  | [] => x
  | y :: ys => if x.2 < y.2 then firstMaxBy y ys else firstMaxBy x ys

/-- `g[DATE_COL].max()` over the remaining records. -/
def listMaxDates (d : ℤ) (l : List (ℤ × ℚ)) : ℤ :=
  l.foldl (fun a p => max a p.1) d

/-- `g.sort_values(DATE_COL)` on (date, est_1rm) records. -/
def sortByDate (g : List (ℤ × ℚ)) : List (ℤ × ℚ) :=
  List.insertionSort (fun a b => a.1 ≤ b.1) g

/-- One row of the `stats` DataFrame of `plot_days_since_pr`. -/
structure PrStat where
  exercise : String
  sessions : ℕ
  pr_1rm : ℚ
  pr_date : ℤ
  last_date : ℤ
  days_since_pr : ℤ
deriving DecidableEq

/-- The per-exercise body of the loop in `plot_days_since_pr` (the group is
sorted by date first, exactly as the code does). -/
def mkStat (ex : String) (g : List (ℤ × ℚ)) : PrStat :=
  match sortByDate g with
  | [] => ⟨ex, 0, 0, 0, 0, 0⟩
  | p :: rest =>
    let pr := firstMaxBy p rest
    let last := listMaxDates p.1 rest
    ⟨ex, (p :: rest).length, pr.2, pr.1, last, last - pr.1⟩

/-- `plot_days_since_pr`: per-exercise stats for exercises with at least
`min_sessions` sessions, ranked descending by `days_since_pr`, truncated to
`top_n`. -/
def plot_days_since_pr (groups : List (String × List (ℤ × ℚ)))
    (top_n min_sessions : ℕ) : List PrStat :=
  let stats := groups.filterMap
    (fun pg => if pg.2.length < min_sessions then none else some (mkStat pg.1 pg.2))
  (List.insertionSort (fun a b => b.days_since_pr ≤ a.days_since_pr) stats).take top_n

/-! ## Helper lemmas about the estimator -/

theorem estimate_1rm_le_one (w : ℚ) (r : ℤ) (cfg : OneRMConfig) (hr : r ≤ 1) :
    estimate_1rm w r cfg = .ok w := by
  unfold estimate_1rm
  rw [if_pos hr]

theorem estimate_1rm_epley (w : ℚ) (r : ℤ) (hr : 1 < r) :
    estimate_1rm w r ⟨"epley"⟩ = .ok (w * (1 + (r : ℚ) / 30)) := by
  unfold estimate_1rm
  rw [if_neg (not_le.mpr hr)]
  rfl

theorem estimate_1rm_brzycki (w : ℚ) (r : ℤ) (hr : 1 < r) :
    estimate_1rm w r ⟨"brzycki"⟩ = .ok (w * (36 / (37 - ((min r 36 : ℤ) : ℚ)))) := by
  unfold estimate_1rm
  rw [if_neg (not_le.mpr hr)]
  rfl

/-! ## Helper lemmas about the pattern cascade -/

theorem firstSome_of_getElem {α : Type} (l : List (Option α)) (i : ℕ) (x : α)
    (hx : l[i]? = some (some x)) (hprev : ∀ j, j < i → l[j]? = some none) :
    firstSome l = some x := by
  induction l generalizing i with
  | nil => simp at hx
  | cons o rest ih =>
    cases i with
    | zero =>
      rw [List.getElem?_cons_zero] at hx
      rw [Option.some.inj hx]
      rfl
    | succ n =>
      have h0 : o = none := by
        have := hprev 0 (Nat.succ_pos n)
        rw [List.getElem?_cons_zero] at this
        exact Option.some.inj this
      subst h0
      rw [List.getElem?_cons_succ] at hx
      show firstSome rest = some x
      exact ih n hx (fun j hj => by
        have := hprev (j + 1) (Nat.succ_lt_succ hj)
        rwa [List.getElem?_cons_succ] at this)

theorem firstSome_eq_none {α : Type} (l : List (Option α)) (h : ∀ o ∈ l, o = none) :
    firstSome l = none := by
  induction l with
  | nil => rfl
  | cons o rest ih =>
    have h0 := h o (List.mem_cons_self o rest)
    subst h0
    show firstSome rest = none
    exact ih fun o2 ho2 => h o2 (List.mem_cons_of_mem _ ho2)

theorem patterns_empty_none : ∀ p ∈ DATE_PATTERNS, p ("") = none := by
  intro p hp
  simp only [DATE_PATTERNS, List.mem_cons, List.not_mem_nil, or_false] at hp
  rcases hp with h | h | h | h | h <;> subst h <;> rfl

/-! ## Helper lemmas about the PR-trend engine -/

instance : IsTotal PrStat (fun a b => b.days_since_pr ≤ a.days_since_pr) :=
  ⟨fun a b => le_total b.days_since_pr a.days_since_pr⟩

instance : IsTrans PrStat (fun a b => b.days_since_pr ≤ a.days_since_pr) :=
  ⟨fun _ _ _ h1 h2 => le_trans h2 h1⟩

theorem cummaxFrom_chain (xs : List ℚ) (m : ℚ) :
    List.Chain' (fun a b => a ≤ b) (m :: cummaxFrom m xs) := by
  induction xs generalizing m with
  | nil => exact List.chain'_singleton m
  | cons x xs ih =>
    rw [cummaxFrom]
    exact List.chain'_cons.mpr ⟨le_max_left m x, ih (max m x)⟩

theorem firstMaxBy_le (x : ℤ × ℚ) (l : List (ℤ × ℚ)) :
    ∀ q ∈ x :: l, q.2 ≤ (firstMaxBy x l).2 := by
  induction l generalizing x with
  | nil =>
    intro q hq
    rw [List.mem_singleton] at hq
    rw [hq]
    exact le_refl _
  | cons y ys ih =>
    intro q hq
    rw [firstMaxBy]
    by_cases h : x.2 < y.2
    · rw [if_pos h]
      rcases List.mem_cons.mp hq with h1 | h1
      · rw [h1]
        exact le_trans (le_of_lt h) (ih y y (List.mem_cons_self y ys))
      · exact ih y q h1
    · rw [if_neg h]
      rcases List.mem_cons.mp hq with h1 | h1
      · rw [h1]
        exact ih x x (List.mem_cons_self x ys)
      · rcases List.mem_cons.mp h1 with h2 | h2
        · rw [h2]
          exact le_trans (le_of_not_lt h) (ih x x (List.mem_cons_self x ys))
        · exact ih x q (List.mem_cons_of_mem x h2)

theorem firstMaxBy_cases (x : ℤ × ℚ) (l : List (ℤ × ℚ)) :
    firstMaxBy x l = x ∨ (firstMaxBy x l ∈ l ∧ x.2 < (firstMaxBy x l).2) := by
  induction l generalizing x with
  | nil => left; rfl
  | cons y ys ih =>
    rw [firstMaxBy]
    by_cases h : x.2 < y.2
    · rw [if_pos h]
      rcases ih y with h1 | ⟨h1, h2⟩
      · right
        rw [h1]
        exact ⟨List.mem_cons_self y ys, h⟩
      · right
        exact ⟨List.mem_cons_of_mem y h1, lt_trans h h2⟩
    · rw [if_neg h]
      rcases ih x with h1 | ⟨h1, h2⟩
      · left; exact h1
      · right
        exact ⟨List.mem_cons_of_mem y h1, h2⟩

theorem firstMaxBy_mem (x : ℤ × ℚ) (l : List (ℤ × ℚ)) : firstMaxBy x l ∈ x :: l := by
  rcases firstMaxBy_cases x l with h | ⟨h, _⟩
  · rw [h]; exact List.mem_cons_self x l
  · exact List.mem_cons_of_mem x h

theorem find?_cons_true {α : Type} (p : α → Bool) (a : α) (l : List α) (h : p a = true) :
    (a :: l).find? p = some a := by
  simp [List.find?_cons, h]

theorem find?_cons_false {α : Type} (p : α → Bool) (a : α) (l : List α) (h : p a = false) :
    (a :: l).find? p = l.find? p := by
  simp [List.find?_cons, h]

theorem firstMaxBy_find? (x : ℤ × ℚ) (l : List (ℤ × ℚ)) :
    (x :: l).find? (fun q => q.2 == (firstMaxBy x l).2) = some (firstMaxBy x l) := by
  induction l generalizing x with
  | nil =>
    rw [show firstMaxBy x [] = x from rfl]
    exact find?_cons_true _ x [] (by simp)
  | cons y ys ih =>
    rw [firstMaxBy]
    by_cases h : x.2 < y.2
    · rw [if_pos h]
      have hlt : x.2 < (firstMaxBy y ys).2 :=
        lt_of_lt_of_le h (firstMaxBy_le y ys y (List.mem_cons_self y ys))
      rw [find?_cons_false (fun q => q.2 == (firstMaxBy y ys).2) x (y :: ys)
        (by simp [ne_of_lt hlt])]
      exact ih y
    · rw [if_neg h]
      rcases firstMaxBy_cases x ys with h1 | ⟨h1, h2⟩
      · rw [h1]
        exact find?_cons_true _ x (y :: ys) (by simp)
      · have hx : ((fun q : ℤ × ℚ => q.2 == (firstMaxBy x ys).2) x) = false := by
          simp [ne_of_lt h2]
        have hy : ((fun q : ℤ × ℚ => q.2 == (firstMaxBy x ys).2) y) = false := by
          simp [ne_of_lt (lt_of_le_of_lt (le_of_not_lt h) h2)]
        rw [find?_cons_false _ x (y :: ys) hx, find?_cons_false _ y ys hy]
        have h3 := ih x
        rw [find?_cons_false _ x ys hx] at h3
        exact h3

theorem listMaxDates_cons (d : ℤ) (y : ℤ × ℚ) (ys : List (ℤ × ℚ)) :
    listMaxDates d (y :: ys) = listMaxDates (max d y.1) ys := rfl

theorem listMaxDates_init_le (l : List (ℤ × ℚ)) (d : ℤ) : d ≤ listMaxDates d l := by
  induction l generalizing d with
  | nil => exact le_refl d
  | cons y ys ih =>
    rw [listMaxDates_cons]
    exact le_trans (le_max_left d y.1) (ih (max d y.1))

theorem listMaxDates_ge (l : List (ℤ × ℚ)) (d : ℤ) :
    ∀ q ∈ l, q.1 ≤ listMaxDates d l := by
  induction l generalizing d with
  | nil => simp
  | cons y ys ih =>
    intro q hq
    rw [listMaxDates_cons]
    rcases List.mem_cons.mp hq with rfl | hq2
    · exact le_trans (le_max_right d q.1) (listMaxDates_init_le ys (max d q.1))
    · exact ih (max d y.1) q hq2

theorem listMaxDates_mem (l : List (ℤ × ℚ)) (d : ℤ) :
    listMaxDates d l = d ∨ listMaxDates d l ∈ l.map Prod.fst := by
  induction l generalizing d with
  | nil => left; rfl
  | cons y ys ih =>
    rw [listMaxDates_cons]
    rcases ih (max d y.1) with h | h
    · rcases le_total d y.1 with hle | hle
      · right
        rw [h, max_eq_right hle]
        simp
      · left
        rw [h, max_eq_left hle]
    · right
      rw [List.map_cons]
      exact List.mem_cons_of_mem _ h

/-! ## Helper lemmas about the weekly aggregator -/

theorem foldl_pushDay_fields (l : List DailyRow) (b : BucketAcc) :
    l.foldl pushDay b =
      ⟨b.weight ++ l.filterMap (fun d => d.weight),
       b.food ++ l.filterMap (fun d => d.food),
       b.exercise ++ l.filterMap (fun d => d.exercise),
       b.net ++ l.filterMap netOf?⟩ := by
  induction l generalizing b with
  | nil => simp
  | cons d rest ih =>
    rw [List.foldl_cons, ih]
    cases hw : d.weight <;> cases hf : d.food <;> cases he : d.exercise <;>
      simp [pushDay, netOf?, hw, hf, he, List.filterMap_cons]

theorem foldl_assocUpdate_single (l : List DailyRow) (ws : ℤ) (b : BucketAcc)
    (h : ∀ d ∈ l, _monday_week_start d.date = ws) :
    l.foldl (fun bs d => assocUpdate (_monday_week_start d.date) d bs) [(ws, b)]
      = [(ws, l.foldl pushDay b)] := by
  induction l generalizing b with
  | nil => rfl
  | cons d rest ih =>
    rw [List.foldl_cons, List.foldl_cons]
    have hd := h d (List.mem_cons_self d rest)
    rw [show assocUpdate (_monday_week_start d.date) d [(ws, b)] = [(ws, pushDay b d)] from by
      rw [hd]; simp [assocUpdate]]
    exact ih (pushDay b d) (fun d2 hd2 => h d2 (List.mem_cons_of_mem d hd2))

theorem collectBuckets_single (daily : List DailyRow) (ws : ℤ)
    (hne : daily ≠ []) (h : ∀ d ∈ daily, _monday_week_start d.date = ws) :
    collectBuckets daily = [(ws, daily.foldl pushDay emptyBucket)] := by
  match daily with
  | [] => exact absurd rfl hne
  | d :: rest =>
    have hd := h d (List.mem_cons_self d rest)
    unfold collectBuckets
    rw [List.foldl_cons,
      show assocUpdate (_monday_week_start d.date) d [] =
        [(_monday_week_start d.date, pushDay emptyBucket d)] from rfl,
      hd, foldl_assocUpdate_single rest ws _ (fun d2 hd2 => h d2 (List.mem_cons_of_mem d hd2)),
      List.foldl_cons]

/-! ## Helper lemmas about the merge-upsert store -/

/-- The bucket keys of a persisted table. -/
def tableKeys (t : List OutRow) : List ℤ := t.map (fun r => r.week_start)

instance : IsTotal OutRow (fun a b => a.week_start ≤ b.week_start) :=
  ⟨fun a b => le_total a.week_start b.week_start⟩

instance : IsTrans OutRow (fun a b => a.week_start ≤ b.week_start) :=
  ⟨fun _ _ _ h1 h2 => le_trans h1 h2⟩

theorem lookupWeek_dictInsert_self (t : List OutRow) (row : OutRow) :
    lookupWeek (dictInsert t row) row.week_start = some row := by
  induction t with
  | nil => exact find?_cons_true _ row [] (by simp)
  | cons r rest ih =>
    rw [dictInsert]
    by_cases h : r.week_start = row.week_start
    · rw [if_pos h]
      exact find?_cons_true _ row rest (by simp)
    · rw [if_neg h]
      unfold lookupWeek
      rw [find?_cons_false _ r _ (by simp [h])]
      exact ih

theorem lookupWeek_dictInsert_other (t : List OutRow) (row : OutRow) (k : ℤ)
    (hk : k ≠ row.week_start) :
    lookupWeek (dictInsert t row) k = lookupWeek t k := by
  induction t with
  | nil =>
    unfold lookupWeek
    rw [show dictInsert [] row = [row] from rfl,
      find?_cons_false _ row [] (by simp [Ne.symm hk])]
  | cons r rest ih =>
    rw [dictInsert]
    by_cases h : r.week_start = row.week_start
    · rw [if_pos h]
      unfold lookupWeek
      rw [find?_cons_false _ row rest (by simp [Ne.symm hk]),
        find?_cons_false _ r rest (by simp [h ▸ Ne.symm hk])]
    · rw [if_neg h]
      unfold lookupWeek
      by_cases hr : r.week_start = k
      · rw [find?_cons_true _ r _ (by simp [hr]), find?_cons_true _ r _ (by simp [hr])]
      · rw [find?_cons_false _ r _ (by simp [hr]), find?_cons_false _ r _ (by simp [hr])]
        exact ih

theorem tableKeys_dictInsert (t : List OutRow) (row : OutRow) :
    tableKeys (dictInsert t row) =
      if row.week_start ∈ tableKeys t then tableKeys t
      else tableKeys t ++ [row.week_start] := by
  induction t with
  | nil => simp [dictInsert, tableKeys]
  | cons r rest ih =>
    rw [dictInsert]
    by_cases h : r.week_start = row.week_start
    · rw [if_pos h]
      rw [if_pos (show row.week_start ∈ tableKeys (r :: rest) by
        rw [show tableKeys (r :: rest) = r.week_start :: tableKeys rest from rfl, h]
        exact List.mem_cons_self _ _)]
      rw [show tableKeys (row :: rest) = row.week_start :: tableKeys rest from rfl,
        show tableKeys (r :: rest) = r.week_start :: tableKeys rest from rfl, h]
    · rw [if_neg h]
      rw [show tableKeys (r :: dictInsert rest row)
          = r.week_start :: tableKeys (dictInsert rest row) from rfl, ih]
      by_cases hm : row.week_start ∈ tableKeys rest
      · rw [if_pos hm, if_pos (show row.week_start ∈ tableKeys (r :: rest) from
          List.mem_cons_of_mem _ hm)]
        rfl
      · rw [if_neg hm, if_neg (show row.week_start ∉ tableKeys (r :: rest) from by
          intro hc
          rcases List.mem_cons.mp hc with h1 | h1
          · exact h h1.symm
          · exact hm h1)]
        rfl

theorem nodupKeys_dictInsert (t : List OutRow) (row : OutRow)
    (h : (tableKeys t).Nodup) : (tableKeys (dictInsert t row)).Nodup := by
  rw [tableKeys_dictInsert]
  by_cases hm : row.week_start ∈ tableKeys t
  · rwa [if_pos hm]
  · rw [if_neg hm]
    refine List.Nodup.append h (List.nodup_singleton _) ?_
    intro a ha hb
    rw [List.mem_singleton.mp hb] at ha
    exact hm ha

theorem dictInsert_append (t : List OutRow) (row : OutRow)
    (h : row.week_start ∉ tableKeys t) : dictInsert t row = t ++ [row] := by
  induction t with
  | nil => rfl
  | cons r rest ih =>
    rw [dictInsert]
    have h1 : r.week_start ≠ row.week_start := by
      intro hc
      apply h
      rw [show tableKeys (r :: rest) = r.week_start :: tableKeys rest from rfl, hc]
      exact List.mem_cons_self _ _
    rw [if_neg h1, ih (fun hc => h (List.mem_cons_of_mem _ hc))]
    rfl

theorem dictInsert_self_eq (t : List OutRow) (row : OutRow)
    (h : lookupWeek t row.week_start = some row) : dictInsert t row = t := by
  induction t with
  | nil => cases h
  | cons r rest ih =>
    rw [dictInsert]
    by_cases hr : r.week_start = row.week_start
    · rw [if_pos hr]
      have h2 : r = row := by
        unfold lookupWeek at h
        rw [find?_cons_true _ r rest (by simp [hr])] at h
        exact Option.some.inj h
      rw [h2]
    · rw [if_neg hr]
      unfold lookupWeek at h
      rw [find?_cons_false _ r rest (by simp [hr])] at h
      rw [ih h]

theorem mergeStep_table (acc : List OutRow × ℕ × ℕ) (wv : ℤ × WeeklyAgg) :
    (mergeStep acc wv).1 = dictInsert acc.1 (formatRow wv.1 wv.2) := by
  unfold mergeStep
  split <;> rfl

theorem mergeStep_noop (t : List OutRow) (a u : ℕ) (wv : ℤ × WeeklyAgg)
    (h : lookupWeek t wv.1 = some (formatRow wv.1 wv.2)) :
    mergeStep (t, a, u) wv = (t, a, u) := by
  unfold mergeStep
  rw [h]
  show (dictInsert t (formatRow wv.1 wv.2), a,
    if formatRow wv.1 wv.2 = formatRow wv.1 wv.2 then u else u + 1) = (t, a, u)
  rw [dictInsert_self_eq t (formatRow wv.1 wv.2) h, if_pos rfl]

theorem mergeFold_lookup_notmem (w : List (ℤ × WeeklyAgg)) :
    ∀ (t : List OutRow) (a u : ℕ) (k : ℤ), k ∉ w.map Prod.fst →
      lookupWeek (w.foldl mergeStep (t, a, u)).1 k = lookupWeek t k := by
  induction w with
  | nil => intro t a u k _; rfl
  | cons wv rest ih =>
    intro t a u k hk
    rw [List.map_cons, List.mem_cons] at hk
    push_neg at hk
    rw [List.foldl_cons]
    have h2 := ih (mergeStep (t, a, u) wv).1 (mergeStep (t, a, u) wv).2.1
      (mergeStep (t, a, u) wv).2.2 k hk.2
    refine h2.trans ?_
    rw [mergeStep_table]
    exact lookupWeek_dictInsert_other t (formatRow wv.1 wv.2) k hk.1

theorem mergeFold_lookup_mem (w : List (ℤ × WeeklyAgg)) :
    ∀ (t : List OutRow) (a u : ℕ) (ws : ℤ) (v : WeeklyAgg),
      (ws, v) ∈ w → (w.map Prod.fst).Nodup →
      lookupWeek (w.foldl mergeStep (t, a, u)).1 ws = some (formatRow ws v) := by
  induction w with
  | nil => intro _ _ _ _ _ h _; cases h
  | cons wv rest ih =>
    intro t a u ws v hmem hnodup
    rw [List.map_cons, List.nodup_cons] at hnodup
    rw [List.foldl_cons]
    rcases List.mem_cons.mp hmem with h1 | h1
    · have hks : ws ∉ rest.map Prod.fst := by
        rw [show ws = wv.1 from by rw [← h1]]
        exact hnodup.1
      rw [mergeFold_lookup_notmem rest _ _ _ ws hks, mergeStep_table, ← h1]
      exact lookupWeek_dictInsert_self t (formatRow ws v)
    · exact ih (mergeStep (t, a, u) wv).1 (mergeStep (t, a, u) wv).2.1
        (mergeStep (t, a, u) wv).2.2 ws v h1 hnodup.2

theorem mergeFold_noop (w : List (ℤ × WeeklyAgg)) :
    ∀ (t : List OutRow) (a u : ℕ),
      (∀ wv ∈ w, lookupWeek t wv.1 = some (formatRow wv.1 wv.2)) →
      w.foldl mergeStep (t, a, u) = (t, a, u) := by
  induction w with
  | nil => intro t a u _; rfl
  | cons wv rest ih =>
    intro t a u h
    rw [List.foldl_cons, mergeStep_noop t a u wv (h wv (List.mem_cons_self wv rest))]
    exact ih t a u (fun wv2 h2 => h wv2 (List.mem_cons_of_mem wv h2))

theorem mergeFold_nodupKeys (w : List (ℤ × WeeklyAgg)) :
    ∀ (t : List OutRow) (a u : ℕ), (tableKeys t).Nodup →
      (tableKeys (w.foldl mergeStep (t, a, u)).1).Nodup := by
  induction w with
  | nil => intro t a u h; exact h
  | cons wv rest ih =>
    intro t a u h
    rw [List.foldl_cons]
    have h2 := ih (mergeStep (t, a, u) wv).1 (mergeStep (t, a, u) wv).2.1
      (mergeStep (t, a, u) wv).2.2 (by rw [mergeStep_table]; exact nodupKeys_dictInsert t _ h)
    exact h2

theorem load_foldl_nodupKeys (rows : List OutRow) :
    ∀ (acc : List OutRow), (tableKeys acc).Nodup →
      (tableKeys (rows.foldl dictInsert acc)).Nodup := by
  induction rows with
  | nil => intro acc h; exact h
  | cons r rest ih =>
    intro acc h
    rw [List.foldl_cons]
    exact ih _ (nodupKeys_dictInsert acc r h)

theorem load_nodupKeys (rows : List OutRow) :
    (tableKeys (_load_existing_weekly rows)).Nodup :=
  load_foldl_nodupKeys rows [] List.nodup_nil

theorem load_of_nodup_foldl (rows : List OutRow) :
    ∀ (acc : List OutRow),
      (∀ k ∈ tableKeys rows, k ∉ tableKeys acc) → (tableKeys rows).Nodup →
      rows.foldl dictInsert acc = acc ++ rows := by
  induction rows with
  | nil => intro acc _ _; simp
  | cons r rest ih =>
    intro acc hdisj hnodup
    rw [show tableKeys (r :: rest) = r.week_start :: tableKeys rest from rfl,
      List.nodup_cons] at hnodup
    have hdisj2 : ∀ k ∈ tableKeys rest, k ∉ tableKeys (acc ++ [r]) := by
      intro k hk hc
      rw [show tableKeys (acc ++ [r]) = tableKeys acc ++ [r.week_start] from by
        simp [tableKeys]] at hc
      rcases List.mem_append.mp hc with h1 | h1
      · exact hdisj k (List.mem_cons_of_mem _ hk) h1
      · rw [List.mem_singleton] at h1
        exact hnodup.1 (h1 ▸ hk)
    rw [List.foldl_cons,
      dictInsert_append acc r (hdisj r.week_start (List.mem_cons_self _ _)),
      ih (acc ++ [r]) hdisj2 hnodup.2]
    simp

theorem load_of_nodup (rows : List OutRow) (h : (tableKeys rows).Nodup) :
    _load_existing_weekly rows = rows := by
  have h0 := load_of_nodup_foldl rows [] (fun k _ hc => absurd hc (List.not_mem_nil k)) h
  rw [List.nil_append] at h0
  exact h0

theorem lookupWeek_eq_some_iff :
    ∀ (t : List OutRow) (k : ℤ) (row : OutRow), (tableKeys t).Nodup →
      (lookupWeek t k = some row ↔ row ∈ t ∧ row.week_start = k) := by
  intro t
  induction t with
  | nil =>
    intro k row _
    simp [lookupWeek]
  | cons r rest ih =>
    intro k row hnd
    rw [show tableKeys (r :: rest) = r.week_start :: tableKeys rest from rfl,
      List.nodup_cons] at hnd
    by_cases hr : r.week_start = k
    · unfold lookupWeek
      rw [find?_cons_true _ r rest (by simp [hr])]
      constructor
      · intro h
        rw [← Option.some.inj h]
        exact ⟨List.mem_cons_self r rest, hr⟩
      · rintro ⟨hmem, hk⟩
        rcases List.mem_cons.mp hmem with h1 | h1
        · rw [h1]
        · exfalso
          exact hnd.1 (List.mem_map.mpr ⟨row, h1, hk.trans hr.symm⟩)
    · unfold lookupWeek
      rw [find?_cons_false _ r rest (by simp [hr])]
      rw [show List.find? (fun r2 => r2.week_start == k) rest = lookupWeek rest k from rfl,
        ih k row hnd.2]
      constructor
      · rintro ⟨h1, h2⟩
        exact ⟨List.mem_cons_of_mem r h1, h2⟩
      · rintro ⟨h1, h2⟩
        rcases List.mem_cons.mp h1 with h3 | h3
        · exfalso
          apply hr
          rw [← h2, h3]
        · exact ⟨h3, h2⟩

theorem lookupWeek_none_iff (t : List OutRow) (k : ℤ) :
    lookupWeek t k = none ↔ k ∉ tableKeys t := by
  unfold lookupWeek
  rw [List.find?_eq_none]
  constructor
  · intro h hk
    rcases List.mem_map.mp hk with ⟨r, hr, hrk⟩
    exact (h r hr) (by simp [hrk])
  · intro h r hr
    simp only [beq_iff_eq]
    intro hc
    exact h (List.mem_map.mpr ⟨r, hr, hc⟩)

theorem lookupWeek_perm (t t2 : List OutRow) (hp : t.Perm t2)
    (hnd : (tableKeys t).Nodup) (k : ℤ) :
    lookupWeek t k = lookupWeek t2 k := by
  have hpk := hp.map (fun r => r.week_start)
  have hnd2 : (tableKeys t2).Nodup := hpk.nodup_iff.mp hnd
  cases hl : lookupWeek t k with
  | none =>
    have h1 := (lookupWeek_none_iff t k).mp hl
    symm
    rw [lookupWeek_none_iff]
    intro hk
    exact h1 (hpk.mem_iff.mpr hk)
  | some row =>
    have h1 := (lookupWeek_eq_some_iff t k row hnd).mp hl
    exact ((lookupWeek_eq_some_iff t2 k row hnd2).mpr ⟨hp.mem_iff.mp h1.1, h1.2⟩).symm

theorem bucketKeys_assocUpdate (k : ℤ) (d : DailyRow) :
    ∀ bs : List (ℤ × BucketAcc),
      (assocUpdate k d bs).map Prod.fst =
        if k ∈ bs.map Prod.fst then bs.map Prod.fst else bs.map Prod.fst ++ [k] := by
  intro bs
  induction bs with
  | nil => simp [assocUpdate]
  | cons p rest ih =>
    obtain ⟨k0, b⟩ := p
    rw [assocUpdate]
    by_cases h : k0 = k
    · rw [if_pos h]
      rw [if_pos (show k ∈ ((k0, b) :: rest).map Prod.fst by
        rw [List.map_cons]
        exact h ▸ List.mem_cons_self _ _)]
      simp
    · rw [if_neg h, List.map_cons, List.map_cons, ih]
      by_cases hm : k ∈ rest.map Prod.fst
      · rw [if_pos hm, if_pos (List.mem_cons_of_mem _ hm)]
      · rw [if_neg hm, if_neg (show k ∉ k0 :: rest.map Prod.fst from by
          intro hc
          rcases List.mem_cons.mp hc with h1 | h1
          · exact h h1.symm
          · exact hm h1)]
        rfl

theorem collectFold_nodupKeys (daily : List DailyRow) :
    ∀ bs : List (ℤ × BucketAcc), (bs.map Prod.fst).Nodup →
      ((daily.foldl (fun bs2 d => assocUpdate (_monday_week_start d.date) d bs2) bs).map
        Prod.fst).Nodup := by
  induction daily with
  | nil => intro bs h; exact h
  | cons d rest ih =>
    intro bs h
    rw [List.foldl_cons]
    apply ih
    rw [bucketKeys_assocUpdate]
    by_cases hm : _monday_week_start d.date ∈ bs.map Prod.fst
    · rwa [if_pos hm]
    · rw [if_neg hm]
      refine List.Nodup.append h (List.nodup_singleton _) ?_
      intro a ha hb
      rw [List.mem_singleton.mp hb] at ha
      exact hm ha

theorem agg_nodupKeys (daily : List DailyRow) :
    ((_aggregate_weekly daily).map Prod.fst).Nodup := by
  unfold _aggregate_weekly
  rw [List.map_map]
  exact collectFold_nodupKeys daily [] List.nodup_nil

/-- Specification-side count of the buckets a run reports as "added": those
whose key is absent from the prior table. -/
def addedCount (e : List OutRow) : List (ℤ × WeeklyAgg) → ℕ
  | [] => 0
  | wv :: rest => (if lookupWeek e wv.1 = none then 1 else 0) + addedCount e rest

/-- Specification-side count of the buckets a run reports as "updated": those
whose key exists but whose newly formatted row differs from the stored one. -/
def updatedCount (e : List OutRow) : List (ℤ × WeeklyAgg) → ℕ
  | [] => 0
  | wv :: rest =>
    (match lookupWeek e wv.1 with
     | some before => if formatRow wv.1 wv.2 = before then 0 else 1
     | none => 0) + updatedCount e rest

theorem mergeFold_counts (e : List OutRow) (w : List (ℤ × WeeklyAgg)) :
    ∀ (t : List OutRow) (a u : ℕ),
      (w.map Prod.fst).Nodup →
      (∀ wv ∈ w, lookupWeek t wv.1 = lookupWeek e wv.1) →
      (w.foldl mergeStep (t, a, u)).2.1 = a + addedCount e w
      ∧ (w.foldl mergeStep (t, a, u)).2.2 = u + updatedCount e w := by
  induction w with
  | nil => intro t a u _ _; exact ⟨rfl, rfl⟩
  | cons wv rest ih =>
    intro t a u hnd hagree
    rw [List.map_cons, List.nodup_cons] at hnd
    have hlt : lookupWeek t wv.1 = lookupWeek e wv.1 := hagree wv (List.mem_cons_self wv rest)
    have hagree2 : ∀ wv2 ∈ rest,
        lookupWeek (dictInsert t (formatRow wv.1 wv.2)) wv2.1 = lookupWeek e wv2.1 := by
      intro wv2 h2
      have hne : wv2.1 ≠ wv.1 := by
        intro hc
        exact hnd.1 (List.mem_map.mpr ⟨wv2, h2, hc⟩)
      rw [lookupWeek_dictInsert_other t _ wv2.1 hne]
      exact hagree wv2 (List.mem_cons_of_mem wv h2)
    rw [List.foldl_cons, addedCount, updatedCount]
    cases hl : lookupWeek e wv.1 with
    | none =>
      have hstep : mergeStep (t, a, u) wv = (dictInsert t (formatRow wv.1 wv.2), a + 1, u) := by
        unfold mergeStep
        rw [hlt, hl]
      rw [hstep, if_pos rfl]
      have hih := ih (dictInsert t (formatRow wv.1 wv.2)) (a + 1) u hnd.2 hagree2
      refine ⟨by rw [hih.1]; omega, ?_⟩
      rw [hih.2]
      show u + updatedCount e rest = u + (0 + updatedCount e rest)
      omega
    | some before =>
      rw [if_neg (show ¬ ((some before : Option OutRow) = none) from fun hc => by cases hc)]
      by_cases hb : formatRow wv.1 wv.2 = before
      · have hstep : mergeStep (t, a, u) wv = (dictInsert t (formatRow wv.1 wv.2), a, u) := by
          unfold mergeStep
          rw [hlt, hl]
          show (dictInsert t (formatRow wv.1 wv.2), a,
            if formatRow wv.1 wv.2 = before then u else u + 1) = _
          rw [if_pos hb]
        rw [hstep]
        have hih := ih (dictInsert t (formatRow wv.1 wv.2)) a u hnd.2 hagree2
        refine ⟨by rw [hih.1]; omega, ?_⟩
        rw [hih.2]
        show u + updatedCount e rest
          = u + ((if formatRow wv.1 wv.2 = before then 0 else 1) + updatedCount e rest)
        rw [if_pos hb]
        omega
      · have hstep : mergeStep (t, a, u) wv = (dictInsert t (formatRow wv.1 wv.2), a, u + 1) := by
          unfold mergeStep
          rw [hlt, hl]
          show (dictInsert t (formatRow wv.1 wv.2), a,
            if formatRow wv.1 wv.2 = before then u else u + 1) = _
          rw [if_neg hb]
        rw [hstep]
        have hih := ih (dictInsert t (formatRow wv.1 wv.2)) a (u + 1) hnd.2 hagree2
        refine ⟨by rw [hih.1]; omega, ?_⟩
        rw [hih.2]
        show u + 1 + updatedCount e rest
          = u + ((if formatRow wv.1 wv.2 = before then 0 else 1) + updatedCount e rest)
        rw [if_neg hb]
        omega

/-! ## Claim theorems -/

/-- C1: when every daily record falls in the same calendar-week bucket `ws`,
the weekly aggregate has exactly that one bucket, and each of the four
aggregates is the mean over only the records with a non-missing value for
that field (missing, never zero, when no record qualifies), `avg_net` being
taken only over days where both food and exercise are present. -/
theorem c1_weekly_aggregate (daily : List DailyRow) (ws : ℤ)
    (hne : daily ≠ []) (hws : ∀ d ∈ daily, _monday_week_start d.date = ws) :
    _aggregate_weekly daily =
      [(ws, ⟨_avg (daily.filterMap (fun d => d.weight)),
             _avg (daily.filterMap (fun d => d.food)),
             _avg (daily.filterMap (fun d => d.exercise)),
             _avg (daily.filterMap netOf?)⟩)] := by
  unfold _aggregate_weekly
  rw [collectBuckets_single daily ws hne hws, foldl_pushDay_fields]
  simp [mkAgg, emptyBucket]

/-- C1 witness: the spec's concrete bucket
`[{food:2000, exercise:300}, {food:1800, exercise:None}]` (days 4 and 5 are
1970-01-05 and 1970-01-06, both in the week of Monday day 4) averages to
`avg_food = 1900`, `avg_exercise = 300`, `avg_net = 1700`. -/
theorem c1_weekly_aggregate_witness :
    _aggregate_weekly [⟨4, none, some 2000, some 300⟩, ⟨5, none, some 1800, none⟩] =
      [(4, ⟨none, some 1900, some 300, some 1700⟩)] := by
  rw [c1_weekly_aggregate _ 4 (by decide) (by decide)]
  norm_num [_avg, netOf?, List.filterMap_cons]
  exact fun h => absurd h (List.cons_ne_nil _ _)

/-- C4: for both formula selectors, `reps <= 1` returns exactly the raw
weight; otherwise Epley gives `weight * (1 + reps/30)` (so 100 at 10 reps is
400/3, which displays as 133.33) and Brzycki gives `weight * 36 / (37 - reps)`
with reps capped at 36, so 100 at 40 reps behaves exactly as at 36 reps. -/
theorem c4_estimate_1rm_formulas (w : ℚ) (r : ℤ) :
    (r ≤ 1 → estimate_1rm w r ⟨"epley"⟩ = .ok w ∧ estimate_1rm w r ⟨"brzycki"⟩ = .ok w)
    ∧ (1 < r → estimate_1rm w r ⟨"epley"⟩ = .ok (w * (1 + (r : ℚ) / 30)))
    ∧ (1 < r → estimate_1rm w r ⟨"brzycki"⟩ = .ok (w * (36 / (37 - ((min r 36 : ℤ) : ℚ)))))
    ∧ (36 ≤ r → estimate_1rm w r ⟨"brzycki"⟩ = estimate_1rm w 36 ⟨"brzycki"⟩)
    ∧ estimate_1rm 100 10 ⟨"epley"⟩ = .ok (400/3)
    ∧ (∃ q : ℚ, estimate_1rm 100 10 ⟨"epley"⟩ = .ok q ∧ 13333/100 ≤ q ∧ q < 13334/100)
    ∧ estimate_1rm 100 40 ⟨"brzycki"⟩ = estimate_1rm 100 36 ⟨"brzycki"⟩ := by
  have e10 : estimate_1rm 100 10 ⟨"epley"⟩ = .ok (400/3) := by
    rw [show estimate_1rm 100 10 ⟨"epley"⟩ = .ok ((100 : ℚ) * (1 + ((10 : ℤ) : ℚ) / 30)) from rfl]
    norm_num
  refine ⟨?_, ?_, ?_, ?_, e10, ⟨400/3, e10, by norm_num, by norm_num⟩, rfl⟩
  · intro hr
    exact ⟨estimate_1rm_le_one w r ⟨"epley"⟩ hr, estimate_1rm_le_one w r ⟨"brzycki"⟩ hr⟩
  · exact estimate_1rm_epley w r
  · exact estimate_1rm_brzycki w r
  · intro hr
    rw [estimate_1rm_brzycki w r (by omega), estimate_1rm_brzycki w 36 (by norm_num),
      min_eq_right hr, min_self]

/-- C4 witness: the theorem instantiated at concrete sets. -/
theorem c4_estimate_1rm_formulas_witness :
    (estimate_1rm 100 1 ⟨"epley"⟩ = .ok 100 ∧ estimate_1rm 100 1 ⟨"brzycki"⟩ = .ok 100)
    ∧ estimate_1rm 150 10 ⟨"epley"⟩ = .ok (150 * (1 + (10 : ℚ) / 30))
    ∧ estimate_1rm 150 10 ⟨"brzycki"⟩ = .ok (150 * (36 / (37 - ((min 10 36 : ℤ) : ℚ))))
    ∧ estimate_1rm 100 40 ⟨"brzycki"⟩ = estimate_1rm 100 36 ⟨"brzycki"⟩ :=
  ⟨(c4_estimate_1rm_formulas 100 1).1 (by norm_num),
   (c4_estimate_1rm_formulas 150 10).2.1 (by norm_num),
   (c4_estimate_1rm_formulas 150 10).2.2.1 (by norm_num),
   (c4_estimate_1rm_formulas 100 40).2.2.2.1 (by norm_num)⟩

/-- C5 counterexample: at `reps = 1` the estimator returns the raw weight
even for an unknown formula selector, so the claim as stated (an error for
every weight and reps) is false. -/
theorem c5_counterexample_reps1_no_error :
    estimate_1rm 100 1 ⟨"nope"⟩ = .ok 100 := rfl

/-- C5 (amended): for `reps > 1`, a formula selector that is neither
"epley" nor "brzycki" after lower-casing raises the Unknown-formula error and
no value is returned; for `reps <= 1` the raw weight is returned without the
selector being validated. -/
theorem c5_unknown_formula_raises (w : ℚ) (r : ℤ) (s : String)
    (hr : 1 < r) (h1 : pyLower s ≠ "epley") (h2 : pyLower s ≠ "brzycki") :
    estimate_1rm w r ⟨s⟩ = .error ("Unknown formula: " ++ s)
    ∧ ∀ w0 r0, r0 ≤ 1 → estimate_1rm w0 r0 ⟨s⟩ = .ok w0 := by
  constructor
  · unfold estimate_1rm
    rw [if_neg (not_le.mpr hr), if_neg h1, if_neg h2]
  · intro w0 r0 hr0
    unfold estimate_1rm
    rw [if_pos hr0]

/-- C5 witness: the amended theorem instantiated at a concrete unknown
selector. -/
theorem c5_unknown_formula_raises_witness :
    estimate_1rm 100 2 ⟨"tomato"⟩ = .error ("Unknown formula: tomato")
    ∧ estimate_1rm 100 1 ⟨"tomato"⟩ = .ok 100 :=
  ⟨(c5_unknown_formula_raises 100 2 ("tomato") (by norm_num) (by decide) (by decide)).1,
   (c5_unknown_formula_raises 100 2 ("tomato") (by norm_num) (by decide) (by decide)).2
     100 1 (by norm_num)⟩

/-- C2: the weekly merge-upsert is idempotent: persist the output of one run
(write sorted, reload) and rerun on the same input — the second run reports
zero added and zero updated buckets. -/
theorem c2_merge_idempotent (daily : List DailyRow) (fileRows : List OutRow) :
    (runWeekly daily (_load_existing_weekly
        (_write_weekly (runWeekly daily (_load_existing_weekly fileRows)).1))).2.1 = 0
    ∧ (runWeekly daily (_load_existing_weekly
        (_write_weekly (runWeekly daily (_load_existing_weekly fileRows)).1))).2.2 = 0 := by
  have hnd1 : (tableKeys (_load_existing_weekly fileRows)).Nodup := load_nodupKeys fileRows
  have hndt1 : (tableKeys (runWeekly daily (_load_existing_weekly fileRows)).1).Nodup :=
    mergeFold_nodupKeys (_aggregate_weekly daily) (_load_existing_weekly fileRows) 0 0 hnd1
  have hperm : (_write_weekly (runWeekly daily (_load_existing_weekly fileRows)).1).Perm
      (runWeekly daily (_load_existing_weekly fileRows)).1 :=
    List.perm_insertionSort _ _
  have hpk := hperm.map (fun r => r.week_start)
  have hndw : (tableKeys (_write_weekly (runWeekly daily
      (_load_existing_weekly fileRows)).1)).Nodup :=
    hpk.nodup_iff.mpr hndt1
  have hload : _load_existing_weekly (_write_weekly (runWeekly daily
      (_load_existing_weekly fileRows)).1) = _write_weekly (runWeekly daily
      (_load_existing_weekly fileRows)).1 :=
    load_of_nodup _ hndw
  have hkey : ∀ wv ∈ _aggregate_weekly daily,
      lookupWeek (_load_existing_weekly (_write_weekly (runWeekly daily
        (_load_existing_weekly fileRows)).1)) wv.1 = some (formatRow wv.1 wv.2) := by
    intro wv hwv
    rw [hload, lookupWeek_perm _ _ hperm hndw wv.1]
    exact mergeFold_lookup_mem (_aggregate_weekly daily) (_load_existing_weekly fileRows)
      0 0 wv.1 wv.2 hwv (agg_nodupKeys daily)
  have hfinal := mergeFold_noop (_aggregate_weekly daily)
    (_load_existing_weekly (_write_weekly (runWeekly daily
      (_load_existing_weekly fileRows)).1)) 0 0 hkey
  constructor <;>
    rw [show runWeekly daily (_load_existing_weekly (_write_weekly (runWeekly daily
        (_load_existing_weekly fileRows)).1))
      = (_load_existing_weekly (_write_weekly (runWeekly daily
        (_load_existing_weekly fileRows)).1), 0, 0) from hfinal]

/-- C3: a run preserves every persisted bucket whose key it did not compute
(the rewritten file returns the prior row exactly); the rewritten file is
sorted ascending by bucket key with one row per key; "added" counts exactly
the computed buckets whose key is new, and "updated" counts exactly those
whose newly formatted row differs from the stored one. -/
theorem c3_merge_frame (daily : List DailyRow) (fileRows : List OutRow) :
    (∀ k, k ∉ (_aggregate_weekly daily).map Prod.fst →
        lookupWeek (_write_weekly (runWeekly daily (_load_existing_weekly fileRows)).1) k
          = lookupWeek (_load_existing_weekly fileRows) k)
    ∧ List.Sorted (fun a b : OutRow => a.week_start ≤ b.week_start)
        (_write_weekly (runWeekly daily (_load_existing_weekly fileRows)).1)
    ∧ (tableKeys (_write_weekly (runWeekly daily (_load_existing_weekly fileRows)).1)).Nodup
    ∧ (runWeekly daily (_load_existing_weekly fileRows)).2.1
        = addedCount (_load_existing_weekly fileRows) (_aggregate_weekly daily)
    ∧ (runWeekly daily (_load_existing_weekly fileRows)).2.2
        = updatedCount (_load_existing_weekly fileRows) (_aggregate_weekly daily) := by
  have hnd1 : (tableKeys (_load_existing_weekly fileRows)).Nodup := load_nodupKeys fileRows
  have hndt1 : (tableKeys (runWeekly daily (_load_existing_weekly fileRows)).1).Nodup :=
    mergeFold_nodupKeys (_aggregate_weekly daily) (_load_existing_weekly fileRows) 0 0 hnd1
  have hperm : (_write_weekly (runWeekly daily (_load_existing_weekly fileRows)).1).Perm
      (runWeekly daily (_load_existing_weekly fileRows)).1 :=
    List.perm_insertionSort _ _
  have hpk := hperm.map (fun r => r.week_start)
  have hndw : (tableKeys (_write_weekly (runWeekly daily
      (_load_existing_weekly fileRows)).1)).Nodup :=
    hpk.nodup_iff.mpr hndt1
  have hcounts := mergeFold_counts (_load_existing_weekly fileRows) (_aggregate_weekly daily)
    (_load_existing_weekly fileRows) 0 0 (agg_nodupKeys daily) (fun _ _ => rfl)
  refine ⟨?_, ?_, hndw, hcounts.1.trans (Nat.zero_add _), hcounts.2.trans (Nat.zero_add _)⟩
  · intro k hk
    rw [lookupWeek_perm _ _ hperm hndw k]
    exact mergeFold_lookup_notmem (_aggregate_weekly daily)
      (_load_existing_weekly fileRows) 0 0 k hk
  · exact List.sorted_insertionSort (fun a b : OutRow => a.week_start ≤ b.week_start) _

/-- C3 witness: a run whose single daily record (all measurements missing)
buckets to Monday day 4 leaves the unrelated persisted bucket with key 100
exactly unchanged in the rewritten output. -/
theorem c3_merge_frame_witness :
    lookupWeek (_write_weekly (runWeekly [⟨4, none, none, none⟩]
        (_load_existing_weekly [⟨100, ("75.0"), ("2000"), ("300"), ("1700")⟩])).1) 100
      = lookupWeek (_load_existing_weekly [⟨100, ("75.0"), ("2000"), ("300"), ("1700")⟩]) 100 :=
  (c3_merge_frame [⟨4, none, none, none⟩]
    [⟨100, ("75.0"), ("2000"), ("300"), ("1700")⟩]).1 100 (by decide)

/-- C6: date parsing tries the five configured patterns in source order and
accepts the first that matches; if all fail, slashes become dashes and ISO is
retried; and the daily-record builder keeps exactly the rows whose date cell
parses, dropping the rest without aborting. -/
theorem c6_date_parsing :
    (∀ (raw : String) (i : ℕ) (p : String → Option CivilDate) (c : CivilDate),
        DATE_PATTERNS[i]? = some p → p (pyStrip raw) = some c →
        (∀ j q, j < i → DATE_PATTERNS[j]? = some q → q (pyStrip raw) = none) →
        _parse_date_to_iso raw = some c)
    ∧ (∀ (raw : String) (c : CivilDate),
        (∀ p ∈ DATE_PATTERNS, p (pyStrip raw) = none) →
        strptimeYmd (slashToDash (pyStrip raw)) = some c →
        _parse_date_to_iso raw = some c)
    ∧ (∀ cm dateH rows,
        extractLoop cm dateH rows = rows.filterMap (fun r =>
          (_parse_date_to_iso (pyStrip ((rowGet r dateH).getD ("")))).map (mkDaily cm r))) := by
  refine ⟨?_, ?_, ?_⟩
  · intro raw i p c hp hpc hprev
    have hmem : p ∈ DATE_PATTERNS := List.getElem?_mem hp
    have hne : pyStrip raw ≠ "" := by
      intro h0
      rw [h0] at hpc
      rw [patterns_empty_none p hmem] at hpc
      cases hpc
    have hi : i < DATE_PATTERNS.length := by
      by_contra hge
      rw [List.getElem?_eq_none (le_of_not_lt hge)] at hp
      cases hp
    unfold _parse_date_to_iso
    rw [if_neg hne,
      firstSome_of_getElem (DATE_PATTERNS.map (fun p2 => p2 (pyStrip raw))) i c
        (by rw [List.getElem?_map, hp]; simp [hpc])
        (by
          intro j hj
          have hj5 : j < DATE_PATTERNS.length := lt_trans hj hi
          rw [List.getElem?_map, List.getElem?_eq_getElem hj5]
          simp [hprev j (DATE_PATTERNS[j]) hj (List.getElem?_eq_getElem hj5)])]
  · intro raw c hall hfb
    have hne : pyStrip raw ≠ "" := by
      intro h0
      rw [h0] at hfb
      rw [show slashToDash ("") = ("") from rfl] at hfb
      cases hfb
    unfold _parse_date_to_iso
    rw [if_neg hne, firstSome_eq_none, hfb]
    intro o ho
    rcases List.mem_map.mp ho with ⟨p, hp, rfl⟩
    exact hall p hp
  · intro cm dateH rows
    induction rows with
    | nil => rfl
    | cons r rest ih =>
      rw [List.filterMap_cons]
      by_cases hr : pyStrip ((rowGet r dateH).getD ("")) = ""
      · rw [show extractLoop cm dateH (r :: rest) = extractLoop cm dateH rest from by
          simp only [extractLoop]; rw [if_pos hr]]
        rw [ih, hr]
        rfl
      · cases hc : _parse_date_to_iso (pyStrip ((rowGet r dateH).getD (""))) with
        | none =>
          rw [show extractLoop cm dateH (r :: rest) = extractLoop cm dateH rest from by
            simp only [extractLoop]; rw [if_neg hr, hc]]
          rw [ih]
          rfl
        | some c =>
          rw [show extractLoop cm dateH (r :: rest) =
              mkDaily cm r c :: extractLoop cm dateH rest from by
            simp only [extractLoop]; rw [if_neg hr, hc]]
          rw [ih]
          rfl

/-- C6 witness: "12/22/2025" fails the ISO pattern and is accepted by the
second pattern; "2025/12/22" fails all five patterns and succeeds through the
slash-to-dash ISO fallback; and the builder keeps exactly the parseable of
two concrete rows. -/
theorem c6_date_parsing_witness :
    _parse_date_to_iso ("12/22/2025") = some ⟨2025, 12, 22⟩
    ∧ _parse_date_to_iso ("2025/12/22") = some ⟨2025, 12, 22⟩
    ∧ extractLoop [] ("Date") [[(("Date"), ("2025-12-22"))], [(("Date"), ("garbage"))]] =
        List.filterMap
          (fun r => (_parse_date_to_iso (pyStrip ((rowGet r ("Date")).getD ("")))).map
            (mkDaily [] r))
          [[(("Date"), ("2025-12-22"))], [(("Date"), ("garbage"))]] :=
  ⟨c6_date_parsing.1 ("12/22/2025") 1 strptimeMdY4 ⟨2025, 12, 22⟩ rfl (by decide)
      (by
        intro j q hj hq
        have hj0 : j = 0 := by omega
        subst hj0
        have hq2 : strptimeYmd = q := by
          have := hq
          rw [show DATE_PATTERNS[0]? = some strptimeYmd from rfl] at this
          exact Option.some.inj this
        subst hq2
        decide),
   c6_date_parsing.2.1 ("2025/12/22") ⟨2025, 12, 22⟩
      (by
        intro p hp
        simp only [DATE_PATTERNS, List.mem_cons, List.not_mem_nil, or_false] at hp
        rcases hp with h | h | h | h | h <;> subst h <;> decide)
      (by decide),
   c6_date_parsing.2.2 [] ("Date") [[(("Date"), ("2025-12-22"))], [(("Date"), ("garbage"))]]⟩

/-- C7: the computed bucket start is the Monday on or before the input date:
its weekday index is 0, it is never after the date, and it is at most 6 days
before it; concretely, Thursday 2025-12-25 buckets to Monday 2025-12-22. -/
theorem c7_bucket_start_is_monday (day : ℤ) :
    pyWeekday (_monday_week_start day) = 0
    ∧ _monday_week_start day ≤ day
    ∧ day - _monday_week_start day ≤ 6
    ∧ _monday_week_start (daysFromCivil ⟨2025, 12, 25⟩) = daysFromCivil ⟨2025, 12, 22⟩ := by
  refine ⟨?_, ?_, ?_, by decide⟩ <;>
    (unfold _monday_week_start pyWeekday; omega)

/-- C8: numeric cell parsing tolerates thousands separators, quote characters
and non-breaking spaces in both variants; the empty string is `None` for the
optional-measurement parser; and a lone dash or en-dash is `None` in
`_to_float` but `0` in `parse_int_like` — the two conventions stay distinct. -/
theorem c8_numeric_parsing_conventions :
    _to_float ("1,729") = some 1729
    ∧ parse_int_like (some ("1,729")) = some 1729
    ∧ _to_float ("\"1729\"") = some 1729
    ∧ _to_float ("300 ") = some 300
    ∧ parse_int_like (some ("2,024 ")) = some 2024
    ∧ _to_float ("") = none
    ∧ _to_float ("-") = none
    ∧ _to_float ("–") = none
    ∧ parse_int_like (some ("-")) = some 0
    ∧ parse_int_like (some ("–")) = some 0
    ∧ parse_int_like (some ("")) = some 0 := by
  refine ⟨?_, by decide, ?_, ?_, by decide, rfl, rfl, rfl, by decide, by decide, by decide⟩
  · rw [show _to_float ("1,729") = some ((1 : ℚ) * ((1729 : ℕ) : ℚ)) from rfl]
    norm_num
  · rw [show _to_float ("\"1729\"") = some ((1 : ℚ) * ((1729 : ℕ) : ℚ)) from rfl]
    norm_num
  · rw [show _to_float ("300 ") = some ((1 : ℚ) * ((300 : ℕ) : ℚ)) from rfl]
    norm_num

/-- C9: per exercise over its date-sorted daily-best records, `pr_1rm` is the
maximum estimate, `pr_date` the date it was first reached (the head of the
first `find?` hit), `days_since_pr` the day difference from the most recent
session; exercises with fewer than `min_sessions` sessions are excluded; the
ranking is descending by `days_since_pr`, truncated to `top_n`; the running-PR
series `cummax` never decreases; and the spec's concrete three-session example
yields `pr=220` at the middle date with a 9-day gap. -/
theorem c9_pr_trend :
    (∀ ex g p rest, sortByDate g = p :: rest →
        ((mkStat ex g).sessions = g.length
        ∧ (∀ q ∈ g, q.2 ≤ (mkStat ex g).pr_1rm)
        ∧ ((mkStat ex g).pr_date, (mkStat ex g).pr_1rm) ∈ g
        ∧ (p :: rest).find? (fun q => q.2 == (mkStat ex g).pr_1rm)
            = some ((mkStat ex g).pr_date, (mkStat ex g).pr_1rm)
        ∧ (∀ q ∈ g, q.1 ≤ (mkStat ex g).last_date)
        ∧ (mkStat ex g).days_since_pr = (mkStat ex g).last_date - (mkStat ex g).pr_date))
    ∧ (∀ groups top_n min_s ex g, g.length < min_s →
        plot_days_since_pr ((ex, g) :: groups) top_n min_s
          = plot_days_since_pr groups top_n min_s)
    ∧ (∀ groups top_n min_s,
        List.Sorted (fun a b : PrStat => b.days_since_pr ≤ a.days_since_pr)
          (plot_days_since_pr groups top_n min_s)
        ∧ (plot_days_since_pr groups top_n min_s).length ≤ top_n)
    ∧ (∀ l : List ℚ, List.Chain' (fun a b => a ≤ b) (cummax l))
    ∧ plot_days_since_pr [(("squat"), [(0, 200), (7, 220), (16, 210)])] 20 3
        = [⟨("squat"), 3, 220, 7, 16, 9⟩] := by
  refine ⟨?_, ?_, ?_, ?_, by decide⟩
  · intro ex g p rest hsort
    have hperm : (p :: rest).Perm g := by
      have h0 := List.perm_insertionSort (fun a b : ℤ × ℚ => a.1 ≤ b.1) g
      rw [show List.insertionSort (fun a b : ℤ × ℚ => a.1 ≤ b.1) g = sortByDate g from rfl,
        hsort] at h0
      exact h0
    have hstat : mkStat ex g =
        ⟨ex, (p :: rest).length, (firstMaxBy p rest).2, (firstMaxBy p rest).1,
          listMaxDates p.1 rest, listMaxDates p.1 rest - (firstMaxBy p rest).1⟩ := by
      unfold mkStat
      rw [hsort]
    rw [hstat]
    refine ⟨hperm.length_eq, ?_, ?_, ?_, ?_, rfl⟩
    · intro q hq
      exact firstMaxBy_le p rest q (hperm.mem_iff.mpr hq)
    · rw [Prod.mk.eta]
      exact hperm.mem_iff.mp (firstMaxBy_mem p rest)
    · rw [Prod.mk.eta]
      exact firstMaxBy_find? p rest
    · intro q hq
      rcases List.mem_cons.mp (hperm.mem_iff.mpr hq) with h1 | h1
      · rw [h1]
        exact listMaxDates_init_le rest p.1
      · exact listMaxDates_ge rest p.1 q h1
  · intro groups top_n min_s ex g h
    simp only [plot_days_since_pr, List.filterMap_cons]
    rw [if_pos h]
  · intro groups top_n min_s
    constructor
    · exact List.Pairwise.sublist (List.take_sublist _ _)
        (List.sorted_insertionSort (fun a b : PrStat => b.days_since_pr ≤ a.days_since_pr) _)
    · exact List.length_take_le _ _
  · intro l
    cases l with
    | nil => exact List.chain'_nil
    | cons x xs => exact cummaxFrom_chain xs x

/-- C9 witness: the PR characterization instantiated at the spec's concrete
three-session history, and the exclusion clause at a one-session exercise. -/
theorem c9_pr_trend_witness :
    (∀ q ∈ [((0 : ℤ), (200 : ℚ)), (7, 220), (16, 210)],
        q.2 ≤ (mkStat ("squat") [(0, 200), (7, 220), (16, 210)]).pr_1rm)
    ∧ ((mkStat ("squat") [(0, 200), (7, 220), (16, 210)]).pr_date,
        (mkStat ("squat") [(0, 200), (7, 220), (16, 210)]).pr_1rm)
        ∈ [((0 : ℤ), (200 : ℚ)), (7, 220), (16, 210)]
    ∧ plot_days_since_pr [(("bench"), [((0 : ℤ), (200 : ℚ))])] 5 2 =
        plot_days_since_pr [] 5 2 :=
  ⟨(c9_pr_trend.1 ("squat") [(0, 200), (7, 220), (16, 210)] (0, 200) [(7, 220), (16, 210)]
      (by decide)).2.1,
   (c9_pr_trend.1 ("squat") [(0, 200), (7, 220), (16, 210)] (0, 200) [(7, 220), (16, 210)]
      (by decide)).2.2.1,
   c9_pr_trend.2.1 [] 5 2 ("bench") [(0, 200)] (by decide)⟩

/-- C10: `parse_int_like` is not total: on "3-4" the cleaning step keeps every
dash, the final int() conversion raises (modelled as `none`), and nothing
normalizes it to 0 — although `None`, empty, lone dash/en-dash and digit-free
inputs all return 0. -/
theorem c10_parse_int_like_not_total :
    parse_int_like (some ("3-4")) = none
    ∧ (pyStrip ("3-4")).data.filter (fun c => c.isDigit || c == '-') = ['3', '-', '4']
    ∧ parse_int_like none = some 0
    ∧ parse_int_like (some ("")) = some 0
    ∧ parse_int_like (some ("-")) = some 0
    ∧ parse_int_like (some ("–")) = some 0
    ∧ parse_int_like (some ("abc")) = some 0 := by
  refine ⟨?_, ?_, ?_, ?_, ?_, ?_, ?_⟩ <;> decide

end HealthLog
